import Mathlib

/-!
Shallow embedding of the statistics-and-ranking core of the
pl-blackjack-game-service background job (src/index.ts).

The job fetches live player statistics, recomputes per-entry aggregates
(`updateEntryStatistics`), and assigns per-pool dense ranks
(`updateEntryRankings`).  The persistent store is modelled as a list of
entries; a `prisma.entry.update` call is modelled as a write record that
is applied to the store by replacing the fields named in the call on the
row with the matching id (entry ids are unique in the schema).  A write
that the store rejects is modelled by a `fails` predicate on the target
entry id: the code catches the exception per entry (aggregation) or per
pool batch (ranking).
-/

namespace GameService

/-- Entry status enum from the prisma schema (`EntryStatus`). -/
inductive EntryStatus where
  | ACTIVE
  | BUST
  | WINNER
  | SHORT
deriving DecidableEq, Repr

/-- The `Player` type of src/index.ts: one row of the remote statistics feed.
`goals_scored` and `own_goals` are non-negative integers per the feed;
`expected_goals` is a fractional number, modelled as a rational. -/
structure Player where
  id : Nat
  goals_scored : Nat
  own_goals : Nat
  expected_goals : ℚ
deriving DecidableEq, Repr

/-- The selected part of the pool `rules` relation (`select: own_goals`). -/
structure Rules where
  own_goals : Bool
deriving DecidableEq, Repr

/-- The pool relation loaded with each entry.  The code also loads the
pool's `entries` relation but never reads it, so it is omitted here. -/
structure Pool where
  id : Nat
  rules : Rules
deriving DecidableEq, Repr

/-- One `entry` row as loaded by `fetchAllEntries`, with its footballer
picks (only ids are selected) and optional pool.  The loaded `profile`
relation is never read by the core and is omitted. -/
structure Entry where
  id : Nat
  footballers : List Nat
  pool : Option Pool
  goals : Nat
  own_goals : Nat
  net_goals : Int
  expected_goals : ℚ
  all_scored : Bool
  status : EntryStatus
  rank : Option Nat
deriving DecidableEq, Repr

/-- The six fields written by one aggregation update
(`prisma.entry.update` inside `updateEntryStatistics`). -/
structure Stats where
  goals : Nat
  own_goals : Nat
  net_goals : Int
  expected_goals : ℚ
  all_scored : Bool
  status : EntryStatus
deriving DecidableEq, Repr

/-- `relevantPlayers.find((p) => p.id === footballer.id)` of src/index.ts. -/
def statFor (ps : List Player) (fid : Nat) : Option Player :=
  ps.find? (fun p => p.id == fid)

/-- The accumulator loop over `entry.footballers` in `updateEntryStatistics`
(lines 86-103): running goals, own goals, expected goals and the
`allScored` flag.  A footballer with no matching stat is skipped. -/
def aggLoop (ps : List Player) : List Nat → Nat → Nat → ℚ → Bool → Nat × Nat × ℚ × Bool
  | [], g, og, xg, a => (g, og, xg, a)
  | fid :: rest, g, og, xg, a =>
    match statFor ps fid with
    | some p =>
        aggLoop ps rest (g + p.goals_scored) (og + p.own_goals) (xg + p.expected_goals)
          (if p.goals_scored == 0 then false else a)
    | none => aggLoop ps rest g og xg a

/-- `parseFloat(expectedGoals.toFixed(2))`: round to two decimal places
(ECMAScript toFixed resolves ties to the larger value, matching `round`). -/
def round2 (q : ℚ) : ℚ :=
  (round (q * 100) : ℚ) / 100

/-- Derive the six written fields from the loop accumulator
(lines 105-114): `netGoals = goals - ownGoals`, the rounded expected
goals, and the status classified as BUST / ACTIVE / SHORT. -/
def statsOfAcc (acc : Nat × Nat × ℚ × Bool) : Stats :=
  { goals := acc.1
    own_goals := acc.2.1
    net_goals := (acc.1 : Int) - (acc.2.1 : Int)
    expected_goals := round2 acc.2.2.1
    all_scored := acc.2.2.2
    status :=
      if acc.1 > 21 then EntryStatus.BUST
      else if acc.2.2.2 then EntryStatus.ACTIVE
      else EntryStatus.SHORT }

/-- The pure part of one iteration of `updateEntryStatistics`
(lines 86-114): aggregate the picks, derive `netGoals` and the status. -/
def computeStatsCore (fbs : List Nat) (ps : List Player) : Stats :=
  statsOfAcc (aggLoop ps fbs 0 0 0 true)

/-- Statistics computed for one entry from its footballer picks. -/
def computeStats (e : Entry) (ps : List Player) : Stats :=
  computeStatsCore e.footballers ps

/-- Apply one aggregation update to the store: the row whose id matches
receives the six computed fields, every other row is untouched. -/
def applyStatWrite (db : List Entry) (w : Nat × Stats) : List Entry :=
  db.map (fun e =>
    if e.id == w.fst then
      { e with
        goals := w.snd.goals
        own_goals := w.snd.own_goals
        net_goals := w.snd.net_goals
        expected_goals := w.snd.expected_goals
        all_scored := w.snd.all_scored
        status := w.snd.status }
    else e)

/-- The sequence of successful aggregation writes issued by
`updateEntryStatistics`: one per entry, in entry order; an entry whose
write fails is caught, logged and skipped (lines 84-131). -/
def statWrites (fails : Nat → Bool) (ps : List Player) : List Entry → List (Nat × Stats)
  | [] => []
  | e :: rest =>
    if fails e.id then statWrites fails ps rest
    else (e.id, computeStats e ps) :: statWrites fails ps rest

/-- `updateEntryStatistics(entries, relevantPlayers)` acting on the store. -/
def updateEntryStatistics (fails : Nat → Bool) (db : List Entry) (entries : List Entry)
    (ps : List Player) : List Entry :=
  (statWrites fails ps entries).foldl applyStatWrite db

/-- Does entry `e` belong to the pool with id `pid`? -/
def entryInPool (pid : Nat) (e : Entry) : Bool :=
  match e.pool with
  | some p => p.id == pid
  | none => false

/-- `poolsMap.get(entry.pool.id).push(entry)`: append `e` to the group
keyed `pid` of the association list, or add a fresh group at the end
(JavaScript Map preserves key insertion order). -/
def insertEntry (pid : Nat) (e : Entry) : List (Nat × List Entry) → List (Nat × List Entry)
  | [] => [(pid, [e])]
  | (q, g) :: rest =>
    if q == pid then (q, g ++ [e]) :: rest else (q, g) :: insertEntry pid e rest

/-- One iteration of the grouping loop of `updateEntryRankings`
(lines 136-143): entries without a pool are skipped. -/
def groupStep (acc : List (Nat × List Entry)) (e : Entry) : List (Nat × List Entry) :=
  match e.pool with
  | some p => insertEntry p.id e acc
  | none => acc

/-- The grouping loop of `updateEntryRankings`. -/
def groupByPoolAux (acc : List (Nat × List Entry)) : List Entry → List (Nat × List Entry)
  | [] => acc
  | e :: rest => groupByPoolAux (groupStep acc e) rest

/-- `poolsMap` after the grouping loop, as an association list in key
insertion order. -/
def groupByPool (entries : List Entry) : List (Nat × List Entry) :=
  groupByPoolAux [] entries

/-- `useNetGoals = poolEntries[0].pool.rules.own_goals` (line 147). -/
def useNet (g : List Entry) : Bool :=
  match g with
  | [] => false
  | e :: _ =>
    match e.pool with
    | some p => p.rules.own_goals
    | none => false

/-- The ranking key selected by the comparator on lines 149-151. -/
def poolKey (g : List Entry) (e : Entry) : Int :=
  if useNet g then e.net_goals else (e.goals : Int)

/-- Descending order on the pool's ranking key: the comparator
`(a, b) => key(b) - key(a)` puts `a` before `b` when `key b ≤ key a`. -/
def rDesc (g : List Entry) (a b : Entry) : Prop :=
  poolKey g b ≤ poolKey g a

instance (g : List Entry) : DecidableRel (rDesc g) :=
  fun _ _ => Int.decLe _ _

instance (g : List Entry) : IsTotal Entry (rDesc g) :=
  ⟨fun a b => le_total (poolKey g b) (poolKey g a)⟩

instance (g : List Entry) : IsTrans Entry (rDesc g) :=
  ⟨fun _ _ _ hab hbc => le_trans hbc hab⟩

/-- `poolEntries.sort(...)`: ECMAScript `Array.prototype.sort` is stable
and orders by the comparator, so it is modelled by a stable sort under
`rDesc g`. -/
def poolSorted (g : List Entry) : List Entry :=
  List.insertionSort (rDesc g) g

/-- The rank writes issued for one pool batch (lines 153-158):
`rank = i + 1` for the i-th entry of the sorted group. -/
def rankPool (g : List Entry) : List (Nat × Nat) :=
  (poolSorted g).enum.map (fun ie => (ie.snd.id, ie.fst + 1))

/-- Successful prefix of a pool's rank writes: the catch on lines 159-161
wraps the whole pool batch, so the first failing write aborts the rest of
that pool's writes (earlier ones are already committed). -/
def takeWrites (fails : Nat → Bool) : List (Nat × Nat) → List (Nat × Nat)
  | [] => []
  | w :: rest => if fails w.fst then [] else w :: takeWrites fails rest

/-- All successful rank writes of `updateEntryRankings`, pool by pool in
map insertion order. -/
def rankWritesF (fails : Nat → Bool) (entries : List Entry) : List (Nat × Nat) :=
  ((groupByPool entries).map (fun pg => takeWrites fails (rankPool pg.snd))).flatten

/-- A store write of `{ rank: i + 1 }` for the row with the given id. -/
def applyRankWrite (db : List Entry) (w : Nat × Nat) : List Entry :=
  db.map (fun e => if e.id == w.fst then { e with rank := some w.snd } else e)

/-- `updateEntryRankings(entries)` acting on the store. -/
def updateEntryRankings (fails : Nat → Bool) (db : List Entry) (entries : List Entry) :
    List Entry :=
  (rankWritesF fails entries).foldl applyRankWrite db

/-- Failure-free store. -/
def noFail : Nat → Bool := fun _ => false

/-- Rank writes of a run in which every store write succeeds. -/
def rankWrites (entries : List Entry) : List (Nat × Nat) :=
  rankWritesF noFail entries

/-- One failure-free invocation of `runGame` (lines 165-216): filter the
feed to known footballer ids, load the entries, and, when there are any,
run aggregation and then ranking.  Mirroring the code, the in-memory
`entries` list is the loaded store snapshot and is NOT refreshed after
the aggregation writes: `updateEntryRankings` reads `goals`/`net_goals`
from that stale snapshot. -/
def runGame (db : List Entry) (footballerIds : List Nat) (eplPlayers : List Player) :
    List Entry :=
  let relevantPlayers := eplPlayers.filter (fun p => footballerIds.contains p.id)
  let entries := db
  if entries.isEmpty then db
  else
    let db1 := updateEntryStatistics noFail db entries relevantPlayers
    updateEntryRankings noFail db1 entries

/-! Concrete sample data used to instantiate the theorems below. -/

/-- Sample pool ranked by `goals` (rule `own_goals = false`). -/
def poolA : Pool := ⟨1, ⟨false⟩⟩

/-- Sample pool ranked by `net_goals` (rule `own_goals = true`). -/
def poolB : Pool := ⟨2, ⟨true⟩⟩

/-- Sample statistics feed: player 1 scored 10, player 2 scored 0. -/
def players0 : List Player := [⟨1, 10, 0, 0⟩, ⟨2, 0, 0, 0⟩]

/-- A duplicate-id stat row for player 1 with different numbers. -/
def dupP : Player := ⟨1, 9, 9, 9⟩

/-- A store that rejects every write targeting entry id 1. -/
def fails1 : Nat → Bool := fun n => n == 1

/-- Entry 1 in pool A: picked footballer 1, stored goals 0. -/
def entA : Entry := ⟨1, [1], some poolA, 0, 0, 0, 0, true, .ACTIVE, none⟩

/-- Entry 2 in pool A: picked footballer 2, stored goals 5. -/
def entB : Entry := ⟨2, [2], some poolA, 5, 0, 5, 0, true, .ACTIVE, none⟩

/-- Entry 3, no pool, picked footballer 1 (matched, scored 10). -/
def entC : Entry := ⟨3, [1], none, 0, 0, 0, 0, true, .ACTIVE, none⟩

/-- Entry 4, no pool, picked footballer 9 (no matching stat). -/
def entD : Entry := ⟨4, [9], none, 0, 0, 0, 0, true, .ACTIVE, none⟩

/-- Entry 5 in pool B. -/
def entE : Entry := ⟨5, [2], some poolB, 3, 1, 2, 0, true, .ACTIVE, none⟩

/-- Entry 6 in pool A, stored goals 5 (tied with entry 7). -/
def entF : Entry := ⟨6, [], some poolA, 5, 0, 5, 0, true, .ACTIVE, none⟩

/-- Entry 7 in pool A, stored goals 5 (tied with entry 6). -/
def entG : Entry := ⟨7, [], some poolA, 5, 0, 5, 0, true, .ACTIVE, none⟩

/-- Entry 8 in pool A, stored goals 7. -/
def entH : Entry := ⟨8, [], some poolA, 7, 0, 7, 0, true, .ACTIVE, none⟩

/-! Lemmas about the aggregation loop. -/

/-- A stat returned by the lookup is a row of the feed. -/
lemma mem_of_statFor {ps : List Player} {fid : Nat} {p : Player}
    (h : statFor ps fid = some p) : p ∈ ps :=
  List.mem_of_find?_eq_some h

/-- The `allScored` flag after the loop is true iff it started true and
every matched stat on the way has a positive `goals_scored`. -/
lemma aggLoop_allScored (ps : List Player) (fbs : List Nat) (g og : Nat) (xg : ℚ) (a : Bool) :
    ((aggLoop ps fbs g og xg a).2.2.2 = true ↔
      (a = true ∧ ∀ fid ∈ fbs, ∀ p, statFor ps fid = some p → 0 < p.goals_scored)) := by
  induction fbs generalizing g og xg a with
  | nil => simp [aggLoop]
  | cons fid rest ih =>
    cases hf : statFor ps fid with
    | none =>
      simp only [aggLoop, hf]
      rw [ih]
      constructor
      · rintro ⟨ha, h⟩
        refine ⟨ha, fun fid' hfid' p hp => ?_⟩
        rcases List.mem_cons.mp hfid' with rfl | h'
        · rw [hf] at hp; cases hp
        · exact h fid' h' p hp
      · rintro ⟨ha, h⟩
        exact ⟨ha, fun fid' h' p hp => h fid' (List.mem_cons_of_mem _ h') p hp⟩
    | some p =>
      simp only [aggLoop, hf]
      rw [ih]
      by_cases hz : p.goals_scored = 0
      · simp only [hz]
        constructor
        · rintro ⟨ha, -⟩; simp at ha
        · rintro ⟨-, h⟩
          have := h fid (List.mem_cons_self _ _) p hf
          omega
      · have hb : (p.goals_scored == 0) = false := by simpa using hz
        simp only [hb, Bool.false_eq_true, if_false]
        constructor
        · rintro ⟨ha, h⟩
          refine ⟨ha, fun fid' hfid' q hq => ?_⟩
          rcases List.mem_cons.mp hfid' with rfl | h'
          · rw [hf] at hq
            injection hq with hq'
            subst hq'
            omega
          · exact h fid' h' q hq
        · rintro ⟨ha, h⟩
          exact ⟨ha, fun fid' h' q hq => h fid' (List.mem_cons_of_mem _ h') q hq⟩

/-- A run of the loop over footballers none of which has a matching stat
leaves the accumulator untouched. -/
lemma aggLoop_unmatched (ps : List Player) (fbs : List Nat) (g og : Nat) (xg : ℚ) (a : Bool)
    (h : ∀ fid ∈ fbs, statFor ps fid = none) :
    aggLoop ps fbs g og xg a = (g, og, xg, a) := by
  induction fbs generalizing g og xg a with
  | nil => rfl
  | cons fid rest ih =>
    have hf := h fid (List.mem_cons_self _ _)
    simp only [aggLoop, hf]
    exact ih _ _ _ _ (fun fid' h' => h fid' (List.mem_cons_of_mem _ h'))

/-- Two feeds that agree on every lookup produce the same accumulator. -/
lemma aggLoop_congr (ps ps' : List Player) (fbs : List Nat)
    (h : ∀ fid ∈ fbs, statFor ps fid = statFor ps' fid) (g og : Nat) (xg : ℚ) (a : Bool) :
    aggLoop ps fbs g og xg a = aggLoop ps' fbs g og xg a := by
  induction fbs generalizing g og xg a with
  | nil => rfl
  | cons fid rest ih =>
    have hf := h fid (List.mem_cons_self _ _)
    have hrest : ∀ fid' ∈ rest, statFor ps fid' = statFor ps' fid' :=
      fun fid' h' => h fid' (List.mem_cons_of_mem _ h')
    simp only [aggLoop, hf]
    cases statFor ps' fid with
    | none => exact ih hrest _ _ _ _
    | some p => exact ih hrest _ _ _ _

/-- A second stat row carrying an id that already occurs earlier in the
feed is invisible to every lookup. -/
lemma statFor_dup (ps₁ ps₂ : List Player) (p : Player) (hp : p.id ∈ ps₁.map Player.id)
    (fid : Nat) : statFor (ps₁ ++ p :: ps₂) fid = statFor (ps₁ ++ ps₂) fid := by
  unfold statFor
  rw [List.find?_append, List.find?_append]
  by_cases hfid : p.id = fid
  · obtain ⟨q, hq, hqid⟩ := List.mem_map.mp hp
    have hsome : (List.find? (fun r => r.id == fid) ps₁).isSome := by
      rw [List.find?_isSome]
      exact ⟨q, hq, by simp [hqid, hfid]⟩
    obtain ⟨r, hr⟩ := Option.isSome_iff_exists.mp hsome
    rw [hr]
    rfl
  · have hskip : List.find? (fun r => r.id == fid) (p :: ps₂) =
        List.find? (fun r => r.id == fid) ps₂ := by
      rw [List.find?_cons_of_neg]
      simpa using hfid
    rw [hskip]

/-- The computed statistics of an entry depend only on its picks. -/
lemma computeStats_congr (e e' : Entry) (ps : List Player)
    (h : e.footballers = e'.footballers) : computeStats e ps = computeStats e' ps := by
  unfold computeStats computeStatsCore
  rw [h]

/-! Lemmas about the store writes. -/

/-- The fields an aggregation update never touches. -/
def framePart (e : Entry) : Nat × List Nat × Option Pool × Option Nat :=
  (e.id, e.footballers, e.pool, e.rank)

/-- The fields a rank update never touches. -/
def statPart (e : Entry) :
    Nat × List Nat × Option Pool × Nat × Nat × Int × ℚ × Bool × EntryStatus :=
  (e.id, e.footballers, e.pool, e.goals, e.own_goals, e.net_goals, e.expected_goals,
    e.all_scored, e.status)

/-- One aggregation update only changes the six statistics columns. -/
lemma applyStatWrite_frame (db : List Entry) (w : Nat × Stats) :
    (applyStatWrite db w).map framePart = db.map framePart := by
  unfold applyStatWrite
  rw [List.map_map]
  refine List.map_congr_left (fun e _ => ?_)
  simp only [Function.comp_apply]
  split <;> rfl

/-- A sequence of aggregation updates only changes the statistics columns. -/
lemma foldl_statWrite_frame (ws : List (Nat × Stats)) (db : List Entry) :
    ((ws.foldl applyStatWrite db).map framePart) = db.map framePart := by
  induction ws generalizing db with
  | nil => rfl
  | cons w rest ih => rw [List.foldl_cons, ih, applyStatWrite_frame]

/-- One rank update only changes the `rank` column. -/
lemma applyRankWrite_frame (db : List Entry) (w : Nat × Nat) :
    (applyRankWrite db w).map statPart = db.map statPart := by
  unfold applyRankWrite
  rw [List.map_map]
  refine List.map_congr_left (fun e _ => ?_)
  simp only [Function.comp_apply]
  split <;> rfl

/-- A sequence of rank updates only changes the `rank` column. -/
lemma foldl_rankWrite_frame (ws : List (Nat × Nat)) (db : List Entry) :
    ((ws.foldl applyRankWrite db).map statPart) = db.map statPart := by
  induction ws generalizing db with
  | nil => rfl
  | cons w rest ih => rw [List.foldl_cons, ih, applyRankWrite_frame]

/-- Without store failures, aggregation issues exactly one write per
entry, in order, carrying the freshly computed statistics. -/
lemma statWrites_noFail (ps : List Player) (entries : List Entry) :
    statWrites noFail ps entries = entries.map (fun e => (e.id, computeStats e ps)) := by
  induction entries with
  | nil => rfl
  | cons e rest ih => simp [statWrites, noFail, ih]

/-- Mapping a function that only looks at the untouched columns gives the
same result on two stores that agree on those columns. -/
lemma map_eq_of_framePart {β : Type} (f : Entry → β)
    (hf : ∀ a b : Entry, framePart a = framePart b → f a = f b) :
    ∀ l₁ l₂ : List Entry, l₁.map framePart = l₂.map framePart → l₁.map f = l₂.map f := by
  intro l₁
  induction l₁ with
  | nil =>
    intro l₂ h
    cases l₂ with
    | nil => rfl
    | cons b t => simp at h
  | cons a t ih =>
    intro l₂ h
    cases l₂ with
    | nil => simp at h
    | cons b t' =>
      simp only [List.map_cons, List.cons.injEq] at h ⊢
      exact ⟨hf a b h.1, ih t' h.2⟩

/-! Lemmas about the pool grouping loop. -/

/-- Keys of the association list after one insertion: unchanged when the
pool id is already present, extended at the end otherwise. -/
lemma insertEntry_keys (pid : Nat) (e : Entry) :
    ∀ acc : List (Nat × List Entry),
      (insertEntry pid e acc).map Prod.fst =
        if pid ∈ acc.map Prod.fst then acc.map Prod.fst else acc.map Prod.fst ++ [pid] := by
  intro acc
  induction acc with
  | nil => simp [insertEntry]
  | cons qg rest ih =>
    obtain ⟨q, g⟩ := qg
    by_cases hq : q = pid
    · subst hq
      have h1 : insertEntry q e ((q, g) :: rest) = (q, g ++ [e]) :: rest := by
        simp only [insertEntry, beq_self_eq_true, if_true]
      rw [h1, if_pos (by simp : q ∈ ((q, g) :: rest).map Prod.fst)]
      simp
    · have hq' : (q == pid) = false := by simpa using hq
      have hne : pid ≠ q := fun h => hq h.symm
      simp only [insertEntry, hq', Bool.false_eq_true, if_false, List.map_cons, ih,
        List.mem_cons]
      by_cases hmem : pid ∈ rest.map Prod.fst
      · simp [hmem, hne]
      · simp [hmem, hne]

/-- Where a pair can come from after one insertion, assuming the keys are
distinct: either an unrelated group survives unchanged, or it is the
group of the inserted pool id, which gained `e` at its end (a fresh
single-entry group when the key was absent). -/
lemma mem_insertEntry {pid : Nat} {e : Entry} {acc : List (Nat × List Entry)}
    (hnd : (acc.map Prod.fst).Nodup) {q : Nat} {h : List Entry}
    (hq : (q, h) ∈ insertEntry pid e acc) :
    (q ≠ pid ∧ (q, h) ∈ acc) ∨
      (q = pid ∧ ∃ g₀, h = g₀ ++ [e] ∧
        ((pid, g₀) ∈ acc ∨ (g₀ = [] ∧ pid ∉ acc.map Prod.fst))) := by
  induction acc with
  | nil =>
    simp only [insertEntry, List.mem_singleton] at hq
    obtain ⟨rfl, rfl⟩ := Prod.mk.injEq .. ▸ hq
    right
    exact ⟨rfl, [], rfl, Or.inr ⟨rfl, by simp⟩⟩
  | cons kg rest ih =>
    obtain ⟨k, g⟩ := kg
    simp only [List.map_cons, List.nodup_cons] at hnd
    by_cases hk : k == pid
    · have hkp : k = pid := by simpa using hk
      subst hkp
      simp only [insertEntry, hk, if_true, List.mem_cons] at hq
      rcases hq with hq | hq
      · obtain ⟨rfl, rfl⟩ := Prod.mk.injEq .. ▸ hq
        right
        exact ⟨rfl, g, rfl, Or.inl (List.mem_cons_self _ _)⟩
      · left
        have hqmem : q ∈ rest.map Prod.fst :=
          List.mem_map.mpr ⟨(q, h), hq, rfl⟩
        have : q ≠ k := fun he => hnd.1 (he ▸ hqmem)
        exact ⟨this, List.mem_cons_of_mem _ hq⟩
    · have hkp : k ≠ pid := by simpa using hk
      simp only [insertEntry, hk, Bool.false_eq_true, if_false, List.mem_cons] at hq
      rcases hq with hq | hq
      · obtain ⟨rfl, rfl⟩ := Prod.mk.injEq .. ▸ hq
        exact Or.inl ⟨hkp, List.mem_cons_self _ _⟩
      · rcases ih hnd.2 hq with ⟨hne, hmem⟩ | ⟨rfl, g₀, rfl, hcase⟩
        · exact Or.inl ⟨hne, List.mem_cons_of_mem _ hmem⟩
        · right
          refine ⟨rfl, g₀, rfl, ?_⟩
          rcases hcase with hmem | ⟨rfl, habs⟩
          · exact Or.inl (List.mem_cons_of_mem _ hmem)
          · refine Or.inr ⟨rfl, ?_⟩
            simp only [List.map_cons, List.mem_cons]
            rintro (rfl | hmem)
            · exact hkp rfl
            · exact habs hmem

/-- Invariant of the grouping loop: with distinct keys, every group of
the accumulator is the ordered filter of the entries processed so far,
and absent keys match no processed entry.  Hence every group of the
final map is the ordered filter of the input list. -/
lemma groupByPoolAux_spec :
    ∀ (rest : List Entry) (acc : List (Nat × List Entry)) (processed : List Entry),
      ((acc.map Prod.fst).Nodup) →
      (∀ q h, (q, h) ∈ acc → h = processed.filter (entryInPool q)) →
      (∀ q, q ∉ acc.map Prod.fst → processed.filter (entryInPool q) = []) →
      ∀ q h, (q, h) ∈ groupByPoolAux acc rest →
        h = (processed ++ rest).filter (entryInPool q) := by
  intro rest
  induction rest with
  | nil =>
    intro acc processed _ h1 _ q h hq
    rw [List.append_nil]
    exact h1 q h hq
  | cons e rest ih =>
    intro acc processed hnd h1 h2 q h hq
    have hrw : processed ++ e :: rest = (processed ++ [e]) ++ rest := by simp
    rw [hrw]
    have hq' : (q, h) ∈ groupByPoolAux (groupStep acc e) rest := hq
    cases hp : e.pool with
    | none =>
      have hnone : ∀ q', entryInPool q' e = false := by
        intro q'; simp [entryInPool, hp]
      have hstep : groupStep acc e = acc := by simp [groupStep, hp]
      rw [hstep] at hq'
      refine ih acc (processed ++ [e]) hnd ?_ ?_ q h hq'
      · intro q' h' hmem
        rw [List.filter_append, h1 q' h' hmem]
        simp [hnone]
      · intro q' hq'mem
        rw [List.filter_append, h2 q' hq'mem]
        simp [hnone]
    | some p =>
      have hin : entryInPool p.id e = true := by simp [entryInPool, hp]
      have hother : ∀ q', q' ≠ p.id → entryInPool q' e = false := by
        intro q' hne; simp [entryInPool, hp]
        simpa [eq_comm] using hne
      have hstep : groupStep acc e = insertEntry p.id e acc := by simp [groupStep, hp]
      rw [hstep] at hq'
      have hpidmem : p.id ∈ (insertEntry p.id e acc).map Prod.fst := by
        rw [insertEntry_keys]
        by_cases hmem : p.id ∈ acc.map Prod.fst <;> simp [hmem]
      refine ih (insertEntry p.id e acc) (processed ++ [e]) ?_ ?_ ?_ q h hq'
      · rw [insertEntry_keys]
        by_cases hmem : p.id ∈ acc.map Prod.fst
        · simpa [hmem] using hnd
        · simp only [hmem, if_false]
          simp [List.nodup_append, hnd, hmem]
      · intro q' h' hmem
        rcases mem_insertEntry hnd hmem with ⟨hne, hmem'⟩ | ⟨rfl, g₀, rfl, hcase⟩
        · rw [List.filter_append, h1 q' h' hmem']
          simp [hother q' hne]
        · rw [List.filter_append]
          rcases hcase with hmem' | ⟨rfl, habs⟩
          · rw [h1 p.id g₀ hmem']
            simp [hin]
          · rw [h2 p.id habs]
            simp [hin]
      · intro q' hq'mem
        have hq'ne : q' ≠ p.id := fun he => hq'mem (he ▸ hpidmem)
        have hq'abs : q' ∉ acc.map Prod.fst := by
          intro hmem
          apply hq'mem
          rw [insertEntry_keys]
          by_cases hm : p.id ∈ acc.map Prod.fst
          · simpa [hm] using hmem
          · simp [hm, hmem]
        rw [List.filter_append, h2 q' hq'abs]
        simp [hother q' hq'ne]

/-- Every group of `poolsMap` is the ordered filter of the input list:
the grouping preserves the order in which entries were loaded. -/
lemma groupByPool_eq_filter {entries : List Entry} {pid : Nat} {g : List Entry}
    (h : (pid, g) ∈ groupByPool entries) : g = entries.filter (entryInPool pid) := by
  have := groupByPoolAux_spec entries [] [] (by simp) (by simp) (by simp) pid g h
  simpa using this

/-- Unfolding one step of the grouping loop. -/
lemma groupByPoolAux_cons (acc : List (Nat × List Entry)) (e : Entry) (rest : List Entry) :
    groupByPoolAux acc (e :: rest) = groupByPoolAux (groupStep acc e) rest := rfl

/-- Entries without a pool do not influence the grouping at all. -/
lemma groupByPoolAux_filter_pooled (entries : List Entry) :
    ∀ acc, groupByPoolAux acc (entries.filter (fun e => e.pool.isSome)) =
      groupByPoolAux acc entries := by
  induction entries with
  | nil => intro acc; rfl
  | cons e rest ih =>
    intro acc
    cases hp : e.pool with
    | none =>
      have hstep : groupStep acc e = acc := by simp [groupStep, hp]
      rw [List.filter_cons]
      simp only [hp, Option.isSome_none, Bool.false_eq_true, if_false]
      rw [ih acc, groupByPoolAux_cons, hstep]
    | some p =>
      rw [List.filter_cons]
      simp only [hp, Option.isSome_some, if_true]
      rw [groupByPoolAux_cons, groupByPoolAux_cons]
      exact ih (groupStep acc e)

/-! Lemmas about the per-pool sort. -/

/-- The sort permutes the group. -/
lemma poolSorted_perm (g : List Entry) : (poolSorted g).Perm g :=
  List.perm_insertionSort _ _

/-- The sort preserves the group's length. -/
lemma poolSorted_length (g : List Entry) : (poolSorted g).length = g.length :=
  (poolSorted_perm g).length_eq

/-- The sort orders the group descending by the pool's ranking key. -/
lemma poolSorted_sorted (g : List Entry) : List.Sorted (rDesc g) (poolSorted g) :=
  List.sorted_insertionSort _ _

/-- Stability of the sort: a selection of pairwise-tied entries comes out
of the sort in exactly the order it went in. -/
lemma poolSorted_filter_eq (g : List Entry) (p : Entry → Bool)
    (hp : ∀ a ∈ g, ∀ b ∈ g, p a = true → p b = true → rDesc g a b) :
    (poolSorted g).filter p = g.filter p := by
  have hc : (g.filter p).Pairwise (rDesc g) := by
    refine List.pairwise_of_forall_mem_list (fun a ha b hb => ?_)
    exact hp a (List.mem_of_mem_filter ha) b (List.mem_of_mem_filter hb)
      (List.of_mem_filter ha) (List.of_mem_filter hb)
  have hsub : List.Sublist (g.filter p) (poolSorted g) :=
    List.sublist_insertionSort hc (List.filter_sublist g)
  have hself : (g.filter p).filter p = g.filter p :=
    List.filter_eq_self.mpr (fun a ha => List.of_mem_filter ha)
  have hsub2 : List.Sublist (g.filter p) ((poolSorted g).filter p) := by
    have h := hsub.filter p
    rwa [hself] at h
  have hperm : ((poolSorted g).filter p).Perm (g.filter p) := (poolSorted_perm g).filter p
  exact (hsub2.eq_of_length hperm.length_eq.symm).symm

/-- The ranks issued for one pool batch are 1, 2, ..., N in order. -/
lemma rankPool_ranks (g : List Entry) :
    (rankPool g).map Prod.snd = List.range' 1 g.length := by
  unfold rankPool
  rw [List.map_map]
  have h1 : (Prod.snd ∘ fun ie : Nat × Entry => (ie.snd.id, ie.fst + 1)) =
      (fun i => i + 1) ∘ Prod.fst := rfl
  rw [h1, ← List.map_map, List.enum_map_fst, poolSorted_length, List.range'_eq_map_range]
  exact List.map_congr_left fun a _ => Nat.add_comm a 1

/-- The target ids of one pool batch are the sorted group's ids. -/
lemma rankPool_ids (g : List Entry) :
    (rankPool g).map Prod.fst = (poolSorted g).map Entry.id := by
  unfold rankPool
  rw [List.map_map]
  have h1 : (Prod.fst ∘ fun ie : Nat × Entry => (ie.snd.id, ie.fst + 1)) =
      Entry.id ∘ Prod.snd := rfl
  rw [h1, ← List.map_map, List.enum_map_snd]

/-- Every rank write of a pool batch targets a member of the group. -/
lemma rankPool_id_mem {g : List Entry} {w : Nat × Nat} (h : w ∈ rankPool g) :
    ∃ e ∈ g, w.fst = e.id := by
  have h1 : w.fst ∈ (rankPool g).map Prod.fst := List.mem_map_of_mem _ h
  rw [rankPool_ids] at h1
  obtain ⟨e, he, hid⟩ := List.mem_map.mp h1
  exact ⟨e, (poolSorted_perm g).mem_iff.mp he, hid.symm⟩

/-- A pool batch none of whose writes fails is committed in full. -/
lemma takeWrites_all (fails : Nat → Bool) (ws : List (Nat × Nat))
    (h : ∀ w ∈ ws, fails w.fst = false) : takeWrites fails ws = ws := by
  induction ws with
  | nil => rfl
  | cons w rest ih =>
    have hw := h w (List.mem_cons_self _ _)
    simp only [takeWrites, hw, Bool.false_eq_true, if_false]
    rw [ih (fun w' h' => h w' (List.mem_cons_of_mem _ h'))]

/-! The claims. -/

/-- Claim C1 states that the ranking pass of one `runGame` invocation
ranks by the goal values computed by the aggregation pass of that same
invocation.  The code contradicts this: `updateEntryStatistics` writes
the fresh statistics to the store but never updates the in-memory
`entries` objects, and `updateEntryRankings(entries)` then sorts those
stale objects.  At this input the fresh goals order entry 1 (10 goals)
above entry 2 (0 goals), yet the run assigns entry 1 rank 2 and entry 2
rank 1, following the stored pre-aggregation values 0 and 5. -/
theorem C1_ranking_uses_stale_statistics :
    (computeStats entB players0).goals < (computeStats entA players0).goals ∧
    (runGame [entA, entB] [1, 2] players0).map (fun e => (e.id, e.rank)) =
      [(1, some 2), (2, some 1)] := by
  constructor
  · decide
  · decide

/-- Claim C2: the status written by aggregation is classified from the
freshly computed goals and all-scored flag in the fixed priority order
BUST (goals over 21), then ACTIVE (all scored), then SHORT; the WINNER
status is never produced by this pass. -/
theorem C2_status_priority (e : Entry) (ps : List Player) :
    (computeStats e ps).status =
      (if (computeStats e ps).goals > 21 then EntryStatus.BUST
       else if (computeStats e ps).all_scored then EntryStatus.ACTIVE
       else EntryStatus.SHORT) ∧
    (computeStats e ps).status ≠ EntryStatus.WINNER := by
  refine ⟨rfl, ?_⟩
  have h : (computeStats e ps).status =
      (if (computeStats e ps).goals > 21 then EntryStatus.BUST
       else if (computeStats e ps).all_scored then EntryStatus.ACTIVE
       else EntryStatus.SHORT) := rfl
  rw [h]
  split_ifs <;> decide

/-- Claim C3: for every pool group, the ranks issued are exactly
1, ..., N for the group's N entries, each of the group's entry ids
receives exactly one rank, the order is descending by `net_goals` when
the pool's `own_goals` rule is set and by `goals` otherwise, and entries
without a pool are excluded from ranking entirely. -/
theorem C3_dense_ranks (entries : List Entry) :
    (∀ pid g, (pid, g) ∈ groupByPool entries →
      (rankPool g).map Prod.snd = List.range' 1 g.length ∧
      ((rankPool g).map Prod.fst).Perm (g.map Entry.id) ∧
      List.Sorted (fun a b =>
        (if useNet g then b.net_goals else (b.goals : Int)) ≤
          (if useNet g then a.net_goals else (a.goals : Int))) (poolSorted g)) ∧
    rankWrites entries = rankWrites (entries.filter (fun e => e.pool.isSome)) := by
  constructor
  · intro pid g _
    refine ⟨rankPool_ranks g, ?_, ?_⟩
    · rw [rankPool_ids]
      exact (poolSorted_perm g).map _
    · exact poolSorted_sorted g
  · have h := groupByPoolAux_filter_pooled entries []
    unfold rankWrites rankWritesF groupByPool
    rw [h]

/-- Witness for C3 at a concrete two-entry pool plus an unpooled entry. -/
theorem C3_witness :
    (rankPool [entA, entB]).map Prod.snd = List.range' 1 2 ∧
    rankWrites [entA, entB, entC] =
      rankWrites ([entA, entB, entC].filter (fun e => e.pool.isSome)) := by
  refine ⟨?_, (C3_dense_ranks [entA, entB, entC]).2⟩
  exact ((C3_dense_ranks [entA, entB]).1 1 [entA, entB] (by decide)).1

/-- Claim C4: the written `net_goals` always equals the written `goals`
minus the written `own_goals`, as an integer identity. -/
theorem C4_net_goals (e : Entry) (ps : List Player) :
    (computeStats e ps).net_goals =
      ((computeStats e ps).goals : Int) - ((computeStats e ps).own_goals : Int) := rfl

/-- Claim C5: the written all-scored flag is true iff every pick with a
matching stat has positive `goals_scored` (unmatched picks are ignored),
and an entry none of whose picks matches ends with all aggregates zero,
all-scored true and status ACTIVE. -/
theorem C5_all_scored_semantics (e : Entry) (ps : List Player) :
    ((computeStats e ps).all_scored = true ↔
      ∀ fid ∈ e.footballers, ∀ p, statFor ps fid = some p → 0 < p.goals_scored) ∧
    ((∀ fid ∈ e.footballers, statFor ps fid = none) →
      computeStats e ps = ⟨0, 0, 0, 0, true, EntryStatus.ACTIVE⟩) := by
  constructor
  · have h := aggLoop_allScored ps e.footballers 0 0 0 true
    simp only [eq_self_iff_true, true_and] at h
    exact h
  · intro h
    show statsOfAcc (aggLoop ps e.footballers 0 0 0 true) = _
    rw [aggLoop_unmatched ps e.footballers 0 0 0 true h]
    unfold statsOfAcc
    norm_num [round2]

/-- Witness for C5: entry 3's only pick matched a scorer; entry 4's only
pick has no matching stat. -/
theorem C5_witness :
    (computeStats entC players0).all_scored = true ∧
    computeStats entD players0 = ⟨0, 0, 0, 0, true, EntryStatus.ACTIVE⟩ := by
  constructor
  · refine (C5_all_scored_semantics entC players0).1.mpr ?_
    intro fid hfid p hp
    have hfid1 : fid = 1 := by simpa [entC] using hfid
    subst hfid1
    have hsf : statFor players0 1 = some ⟨1, 10, 0, 0⟩ := rfl
    rw [hsf] at hp
    injection hp with hp'
    subst hp'
    decide
  · refine (C5_all_scored_semantics entD players0).2 ?_
    intro fid hfid
    have hfid9 : fid = 9 := by simpa [entD] using hfid
    subst hfid9
    rfl

/-- Claim C6: a failing per-entry statistics write is isolated (every
entry whose write succeeds still gets its freshly computed statistics
written), and a failing pool batch is isolated (every pool batch whose
writes all succeed is still committed in full). -/
theorem C6_failure_isolation :
    (∀ (fails : Nat → Bool) (ps : List Player) (entries : List Entry) (e : Entry),
      e ∈ entries → fails e.id = false →
      (e.id, computeStats e ps) ∈ statWrites fails ps entries) ∧
    (∀ (fails : Nat → Bool) (entries : List Entry) (pid : Nat) (g : List Entry),
      (pid, g) ∈ groupByPool entries → (∀ e ∈ g, fails e.id = false) →
      (rankPool g).Sublist (rankWritesF fails entries)) := by
  constructor
  · intro fails ps entries e hmem hok
    induction entries with
    | nil => cases hmem
    | cons e' rest ih =>
      rcases List.mem_cons.mp hmem with rfl | h'
      · simp only [statWrites, hok, Bool.false_eq_true, if_false]
        exact List.mem_cons_self _ _
      · cases hf : fails e'.id
        · simp only [statWrites, hf, Bool.false_eq_true, if_false]
          exact List.mem_cons_of_mem _ (ih h')
        · simp only [statWrites, hf, if_true]
          exact ih h'
  · intro fails entries pid g hmem hok
    have hall : ∀ w ∈ rankPool g, fails w.fst = false := by
      intro w hw
      obtain ⟨e, he, hid⟩ := rankPool_id_mem hw
      rw [hid]
      exact hok e he
    have htake : takeWrites fails (rankPool g) = rankPool g := takeWrites_all _ _ hall
    have hmem2 : takeWrites fails (rankPool g) ∈
        (groupByPool entries).map (fun pg => takeWrites fails (rankPool pg.snd)) :=
      List.mem_map_of_mem _ hmem
    rw [htake] at hmem2
    exact List.sublist_flatten_of_mem hmem2

/-- Witness for C6: the store rejects writes to entry 1; entry 5's
statistics write and pool B's whole rank batch still go through. -/
theorem C6_witness :
    (5, computeStats entE players0) ∈ statWrites fails1 players0 [entA, entE] ∧
    (rankPool [entE]).Sublist (rankWritesF fails1 [entA, entE]) := by
  constructor
  · exact C6_failure_isolation.1 fails1 players0 [entA, entE] entE (by decide) (by decide)
  · exact C6_failure_isolation.2 fails1 [entA, entE] 2 [entE] (by decide) (by decide)

/-- Claim C7: aggregation is idempotent — re-running the aggregation
pass on the store it just produced issues exactly the same writes,
because the computed fields depend only on each entry's picks and the
supplied stats, and the first pass does not touch the picks. -/
theorem C7_idempotent (db : List Entry) (ps : List Player) :
    statWrites noFail ps (updateEntryStatistics noFail db db ps) =
      statWrites noFail ps db := by
  rw [statWrites_noFail, statWrites_noFail]
  refine map_eq_of_framePart _ ?_ _ _ ?_
  · intro a b hab
    have hid : a.id = b.id := congrArg (fun x => x.fst) hab
    have hfb : a.footballers = b.footballers := congrArg (fun x => x.snd.fst) hab
    rw [hid, computeStats_congr a b ps hfb]
  · exact foldl_statWrite_frame _ db

/-- Claim C8: the aggregation pass only writes the six statistics
columns and leaves id, picks, pool and rank unchanged on every row; the
ranking pass only writes the rank column and leaves every other column
unchanged on every row. -/
theorem C8_write_frames (fails : Nat → Bool) (db entries : List Entry) (ps : List Player)
    (fails' : Nat → Bool) (db' entries' : List Entry) :
    (updateEntryStatistics fails db entries ps).map framePart = db.map framePart ∧
    (updateEntryRankings fails' db' entries').map statPart = db'.map statPart :=
  ⟨foldl_statWrite_frame _ db, foldl_rankWrite_frame _ db'⟩

/-- Claim C9: only the first stat row carrying a given player id is ever
used: a later row with a duplicated id contributes nothing to any
entry's computed statistics. -/
theorem C9_first_match_wins (e : Entry) (ps₁ ps₂ : List Player) (p : Player)
    (h : p.id ∈ ps₁.map Player.id) :
    computeStats e (ps₁ ++ p :: ps₂) = computeStats e (ps₁ ++ ps₂) := by
  unfold computeStats computeStatsCore
  exact congrArg statsOfAcc
    (aggLoop_congr _ _ _ (fun fid _ => statFor_dup ps₁ ps₂ p h fid) 0 0 0 true)

/-- Witness for C9: appending a second row for player 1 with different
numbers does not change entry 3's computed statistics. -/
theorem C9_witness :
    computeStats entC (players0 ++ [dupP]) = computeStats entC players0 := by
  have h := C9_first_match_wins entC players0 [] dupP (by decide)
  simpa using h

/-- Claim C10: grouping preserves the input order of each pool's entries
(each group is the ordered filter of the input list), the sort is stable
on tied ranking keys (tied entries come out in input order), and tied
keys occupy one contiguous block of the sorted order, so tied entries
receive consecutive ranks in input order. -/
theorem C10_stable_ties (entries : List Entry) (pid : Nat) (g : List Entry)
    (hmem : (pid, g) ∈ groupByPool entries) :
    g = entries.filter (entryInPool pid) ∧
    (∀ k : Int, (poolSorted g).filter (fun e => poolKey g e == k) =
      g.filter (fun e => poolKey g e == k)) ∧
    (∀ i j m : Fin (poolSorted g).length, i ≤ j → i ≤ m → m ≤ j →
      poolKey g ((poolSorted g).get i) = poolKey g ((poolSorted g).get j) →
      poolKey g ((poolSorted g).get m) = poolKey g ((poolSorted g).get i)) := by
  refine ⟨groupByPool_eq_filter hmem, ?_, ?_⟩
  · intro k
    refine poolSorted_filter_eq g _ (fun a _ b _ ha hb => ?_)
    have ha' : poolKey g a = k := by simpa using ha
    have hb' : poolKey g b = k := by simpa using hb
    unfold rDesc
    rw [ha', hb']
  · intro i j m hij him hmj hkey
    have hs := poolSorted_sorted g
    have h1 : rDesc g ((poolSorted g).get i) ((poolSorted g).get m) := by
      rcases eq_or_lt_of_le him with rfl | hlt
      · exact le_refl _
      · exact hs.rel_get_of_lt hlt
    have h2 : rDesc g ((poolSorted g).get m) ((poolSorted g).get j) := by
      rcases eq_or_lt_of_le hmj with rfl | hlt
      · exact le_refl _
      · exact hs.rel_get_of_lt hlt
    unfold rDesc at h1 h2
    omega

/-- Witness for C10 at a pool with a tie: stored goals 5, 5, 7 — the two
tied entries keep their input order among themselves. -/
theorem C10_witness :
    [entF, entG, entH] = ([entF, entG, entH].filter (entryInPool 1)) ∧
    (poolSorted [entF, entG, entH]).filter
        (fun e => poolKey [entF, entG, entH] e == 5) =
      [entF, entG, entH].filter (fun e => poolKey [entF, entG, entH] e == 5) := by
  have h := C10_stable_ties [entF, entG, entH] 1 [entF, entG, entH] (by decide)
  exact ⟨h.1, h.2.1 5⟩

end GameService
